import Mathlib

/-!
Shallow embedding of the record-transformation engine of the repository
(`feed_ursus.py` and `date_parser.py`) together with proofs about the
claims of its specification.

Conventions of the embedding:
* Python `datetime` values produced by the date parser carry only the
  year/month/day components that the code ever sets (the `dateutil`
  default supplies zeros for the time fields throughout), so they are
  modelled as triples ordered lexicographically, exactly as Python
  compares `datetime` values here.
* Python's `set` accumulation followed by `sorted(...)` is modelled as
  `List.dedup` followed by `List.insertionSort`: both produce the sorted
  list of the distinct accumulated elements.
* All strings handled by the regular expressions are assumed
  newline-free (Python's `.`, `$` and `\w` line conventions do not
  arise for the field names and date strings of this data set).
-/

namespace FeedSinai

/-- Model of the Python `datetime` values produced by
`dateutil.parser.parse` in `date_parser.py`: only year, month and day
are ever distinct from the default's zero time fields. -/
structure PyDateTime where
  year : Nat
  month : Nat
  day : Nat
deriving DecidableEq, Repr

/-- Comparison of the modelled `datetime` values: Python compares
`datetime` objects lexicographically on their components. -/
def dtLE (a b : PyDateTime) : Prop :=
  a.year < b.year ∨
    (a.year = b.year ∧
      (a.month < b.month ∨ (a.month = b.month ∧ a.day ≤ b.day)))

instance : DecidableRel dtLE := fun a b => by
  unfold dtLE; infer_instance

instance : IsTotal PyDateTime dtLE :=
  ⟨fun a b => by unfold dtLE; omega⟩

instance : IsTrans PyDateTime dtLE :=
  ⟨fun a b c => by unfold dtLE; omega⟩

instance : IsAntisymm PyDateTime dtLE :=
  ⟨fun a b h₁ h₂ => by
    cases a; cases b
    unfold dtLE at h₁ h₂
    simp only [PyDateTime.mk.injEq] at *
    omega⟩

/-- Digits of a numeric token, as a natural number. -/
def natOfDigits (cs : List Char) : Nat :=
  cs.foldl (fun n c => n * 10 + (c.toNat - 48)) 0

/-- Splits a character list at its last `'/'`, returning the parts
before and after it; `none` when no slash occurs.  The recursion
prefers a split found in the tail, so the returned slash is the last
one and the left part is maximal, exactly like the greedy first group
of the regex `(.*)/(.*)`. -/
def splitLastSlash : List Char → Option (List Char × List Char)
  | [] => none
  | c :: rest =>
    match splitLastSlash rest with
    | some (l, r) => some (c :: l, r)
    | none => if c = '/' then some ([], rest) else none

/-- Tests whether a string is a non-empty run of ASCII digits. -/
def allDigits (s : String) : Bool :=
  !s.data.isEmpty && s.data.all Char.isDigit

/-- Models `dateutil.parser.parse(s, default=datetime(1978, 1, 1))` on
the string shapes exercised in this development (the library itself is
an external collaborator of the repository):
* a bare 3- or 4-digit number parses as that year, month and day coming
  from the default (so `"1978"` parses to 1978-01-01 like any other
  explicit year);
* a bare 1- or 2-digit number in 1..31 parses as a day of the default
  year and month;
* `"M/D"` with numeric fields (a single slash), M in 1..12 and D in
  1..31, parses as a month and day of the default year;
* anything else fails to parse (`ValueError`), modelled as `none`. -/
def dateutil_parse (s : String) : Option PyDateTime :=
  if allDigits s && (s.data.length == 3 || s.data.length == 4)
      && natOfDigits s.data != 0 then
    some ⟨natOfDigits s.data, 1, 1⟩
  else if allDigits s && s.data.length ≤ 2
      && natOfDigits s.data ≥ 1 && natOfDigits s.data ≤ 31 then
    some ⟨1978, 1, natOfDigits s.data⟩
  else
    match splitLastSlash s.data with
    | some (a, b) =>
      if !a.contains '/' && !b.contains '/'
          && !a.isEmpty && a.all Char.isDigit
          && !b.isEmpty && b.all Char.isDigit
          && natOfDigits a ≥ 1 && natOfDigits a ≤ 12
          && natOfDigits b ≥ 1 && natOfDigits b ≤ 31 then
        some ⟨1978, natOfDigits a, natOfDigits b⟩
      else none
    | none => none

/-- Embedding of `date_parser.get_date`: the `try`/`except ValueError`
around the `dateutil` call (which logs and returns `None` on failure)
is the `Option`. -/
def get_date (date : String) : Option PyDateTime :=
  dateutil_parse date

/-- Models `RANGE.search(s)` for `RANGE = re.compile(r"(.*)/(.*)")` on
newline-free strings: the search succeeds exactly when the string
contains a slash, and the two greedy groups are the text before and
after the last slash. -/
def rangeSearch (s : String) : Option (String × String) :=
  (splitLastSlash s.data).map fun p => (⟨p.1⟩, ⟨p.2⟩)

/-- Model of the Python values that can appear as the argument of
`get_dates` and as elements of it: the code only distinguishes
non-iterables, strings, and other elements (which it skips). -/
inductive PyObj where
  | pyNone : PyObj
  | pyNum : Int → PyObj
  | pyStr : String → PyObj
  | pyList : List PyObj → PyObj

/-- Python `isinstance(x, typing.Iterable)` on the modelled values:
strings and lists are iterable, `None` and numbers are not. -/
def pyIsIterable : PyObj → Bool
  | .pyStr _ => true
  | .pyList _ => true
  | _ => false

/-- Iterating a Python value: a list yields its elements and a string
yields its characters as one-character strings. -/
def pyIterate : PyObj → List PyObj
  | .pyList xs => xs
  | .pyStr s => s.data.map fun c => .pyStr (String.singleton c)
  | _ => []

/-- The dates contributed to the accumulating set by one element of the
loop body of `get_dates`: non-strings are skipped; a string matching
`RANGE` contributes both parsed ends when both parse and nothing
otherwise (note `datetime` objects are always truthy, so `if start and
end` is a `None` test); a string without a slash contributes its own
parse when it succeeds. -/
def elemDates : PyObj → List PyDateTime
  | .pyStr s =>
    match rangeSearch s with
    | some (l, r) =>
      match get_date l, get_date r with
      | some start, some «end» => [start, «end»]
      | _, _ => []
    | none =>
      match get_date s with
      | some d => [d]
      | none => []
  | _ => []

/-- Embedding of `date_parser.get_dates`: a non-iterable argument gives
`[]`; otherwise the elements' dates are accumulated into a set and the
set is returned sorted (`dedup` + `insertionSort` produce exactly
`sorted(set(...))`). -/
def get_dates (dates : PyObj) : List PyDateTime :=
  if pyIsIterable dates then
    List.insertionSort dtLE ((pyIterate dates).flatMap elemDates).dedup
  else []

/-! Embedding of `feed_ursus.py`. -/

deriving instance DecidableEq for Except

/-- A value stored in an output record: `None`, a string, or a list of
strings.  These are the shapes the engine itself produces (`None` from
unmapped fields and failed lookups, strings from computed rules such as
the thumbnail rule, lists of strings from the column paths). -/
inductive Val where
  | vnone : Val
  | vstr : String → Val
  | vlist : List String → Val
deriving DecidableEq, Repr

/-- Python truthiness of the modelled values: `None`, `""` and `[]` are
falsy. -/
def truthy : Val → Bool
  | .vnone => false
  | .vstr s => s != ""
  | .vlist l => !l.isEmpty

/-- Python `a or b`: `a` when `a` is truthy, otherwise `b`. -/
def pyOr (a b : Val) : Val :=
  if truthy a then a else b

/-- Lifts an `Optional[str]` into a record value. -/
def optVal : Option String → Val
  | none => .vnone
  | some s => .vstr s

/-- A CSV row: an association list from column name to cell value,
where a present column may still hold a null cell (`pandas` stores
`None` for blank cells after `data_frame.where(...)`).  Per the spec's
interface contract, cell values are strings or null. -/
abbrev Row : Type := List (String × Option String)

/-- Python `row.get(k)`: `None` both when the column is absent and when
its cell is null. -/
def rowGet (row : Row) (k : String) : Option String :=
  (List.lookup k row).join

/-- Python `k in row`. -/
def rowHas (row : Row) (k : String) : Bool :=
  (List.lookup k row).isSome

/-- A controlled vocabulary: term-id to display-term. -/
abbrev Terms : Type := List (String × String)

/-- The run configuration built in `load_csv`: the collection-name
index, the controlled-vocabulary tables keyed by base field name, and
(optionally, mirroring `"data_frame" in config`) the full row set. -/
structure Config where
  collection_names : List (String × String)
  controlled_fields : List (String × Terms)
  data_frame : Option (List Row)

/-- A mapping rule, the value of one entry of the external `mapper`
module's `FIELD_MAPPING` dict (the schema is an externally supplied
configuration; its concrete content lives outside the engine, so it is
a parameter here): `None`, a callable, a column name, a list of column
names, or a value of any other, non-collection type (which the code
rejects with a `TypeError`). -/
inductive MappingRule where
  | null : MappingRule
  | computed : (Row → Val) → MappingRule
  | col : String → MappingRule
  | cols : List String → MappingRule
  | notCollection : MappingRule

/-- Word characters of the regex class `\w` (ASCII letters, digits and
the underscore; the field names in play are ASCII). -/
def isWordChar (c : Char) : Bool :=
  c.isAlphanum || c = '_'

/-- Helper for `stripFieldSuffix`: finds the leftmost underscore that
is followed by one or more word characters running to the end of the
character list, and drops it and everything after it; `none` when no
such underscore exists. -/
def stripAux : List Char → Option (List Char)
  | [] => none
  | c :: rest =>
    if c = '_' && !rest.isEmpty && rest.all isWordChar then some []
    else
      match stripAux rest with
      | some l => some (c :: l)
      | none => none

/-- Models `re.sub(r"_\w+$", "", field_name)` on newline-free names:
`re.sub` replaces the leftmost match, and since `\w` includes the
underscore itself, the match starts at the leftmost underscore whose
whole tail is word characters — for an all-word-character field name
that is the first underscore, not the last. -/
def stripFieldSuffix (field_name : String) : String :=
  match stripAux field_name.data with
  | some l => ⟨l⟩
  | none => field_name

/-- Splits a character list on the three-character delimiter `|~|`,
modelling Python `s.split("|~|")` (kept on lists so that concrete
instances evaluate inside the kernel). -/
def splitOnDelim : List Char → List String
  | [] => [""]
  | '|' :: '~' :: '|' :: rest => "" :: splitOnDelim rest
  | c :: rest =>
    match splitOnDelim rest with
    | s :: ss => (⟨c :: s.data⟩ : String) :: ss
    | [] => [⟨[c]⟩]

/-- The fragments a referenced column contributes in the column path of
`map_field_value`: a truthy (non-null, non-empty) cell is split on the
MARC delimiter `|~|`; a falsy cell contributes nothing. -/
def cellFrags (row : Row) (csv_field : String) : List String :=
  match rowGet row csv_field with
  | some s => if s != "" then splitOnDelim s.data else []
  | none => []

/-- The column-list path of `map_field_value` (shared by the string and
list rule shapes): split, concatenate, vocabulary pass, drop falsy. -/
def mapColumnList (row : Row) (field_name : String) (config : Config)
    (mapping : List String) : Except String Val :=
  let output := mapping.flatMap (cellFrags row)
  let output :=
    match List.lookup (stripFieldSuffix field_name) config.controlled_fields with
    | some terms => output.map fun v => (List.lookup v terms).getD v
    | none => output
  .ok (.vlist (output.filter fun v => v != ""))

/-- Embedding of `map_field_value`.  A `None` rule gives `None`; a
callable rule is applied to the row; a string rule is wrapped into a
one-element list; any other non-collection rule raises `TypeError`;
the list path concatenates the split fragments of the referenced
columns in order, substitutes controlled-vocabulary terms when a table
exists for the suffix-stripped field name, and finally drops falsy
(empty-string) fragments. -/
def map_field_value (row : Row) (field_name : String) (config : Config)
    (rule : MappingRule) : Except String Val :=
  match rule with
  | .null => .ok .vnone
  | .computed f => .ok (f row)
  | .col s => mapColumnList row field_name config [s]
  | .cols l => mapColumnList row field_name config l
  | .notCollection =>
    .error "TypeError: FIELD_MAPPING at this field must be iterable, unless it is None, Callable, or a string."

/-- An output record: an association list from output field name to
value, with Python-dict update semantics (`rset` overwrites in place,
appending new keys at the end, like insertion-ordered dicts). -/
abbrev Record : Type := List (String × Val)

/-- Python `record[k]` as a lookup: `none` when the key is absent. -/
def rlookup (record : Record) (k : String) : Option Val :=
  List.lookup k record

/-- Python `record.get(k)`: the absent key degrades to `None`. -/
def rvalD (record : Record) (k : String) : Val :=
  (rlookup record k).getD .vnone

/-- Python `record[k] = v` on an insertion-ordered dict: overwrite the
existing entry in place, or append a new one. -/
def rset (record : Record) (k : String) (v : Val) : Record :=
  if record.any fun p => p.1 == k then
    record.map fun p => if p.1 == k then (k, v) else p
  else record ++ [(k, v)]

/-- Modelled from the spec: the external `mapper` module's
`thumbnail_url` computed rule, absent from `src/` — per the spec it
derives "the first non-null thumbnail URL ... via the same
column-reference mapping used elsewhere", so it is modelled as reading
the row's thumbnail column, a null or empty cell giving no URL. -/
def mapper_thumbnail_url (row : Row) : Option String :=
  match rowGet row "Thumbnail URL" with
  | some s => if s != "" then some s else none
  | none => none

/-- Embedding of `thumbnail_from_child`.  Without a `data_frame` entry
in the config it returns `None` at once; otherwise it reads
`record["ark_ssi"]` (a missing key raises `KeyError`, hence the
`Except`), filters the frame's rows down to the children whose
`Parent ARK` cell equals that ark (`pandas` string equality — a
non-string ark matches nothing), prefers the children titled
`"f. 001r"` and falls back to all children when there are none, and
returns the first truthy thumbnail URL a candidate row yields. -/
def thumbnail_from_child (record : Record) (config : Config) :
    Except String (Option String) :=
  match config.data_frame with
  | none => .ok none
  | some data =>
    match rlookup record "ark_ssi" with
    | none => .error "KeyError: ark_ssi"
    | some ark =>
      let children := data.filter fun r =>
        match ark with
        | .vstr a => rowGet r "Parent ARK" == some a
        | _ => false
      let titled := children.filter fun r => rowGet r "Title" == some "f. 001r"
      let representative := if titled.length = 0 then children else titled
      .ok (representative.findSome? fun r =>
        match mapper_thumbnail_url r with
        | some thumb => if thumb != "" then some thumb else none
        | none => none)

/-- Model of the JSON structures a IIIF manifest response can decode
to. -/
inductive Json where
  | null : Json
  | jbool : Bool → Json
  | num : Int → Json
  | str : String → Json
  | arr : List Json → Json
  | obj : List (String × Json) → Json

/-- A hashable Python value usable as a dict key: the canvas labels.
An unhashable label (list or dict) raises, which the bare `except`
absorbs. -/
inductive HKey where
  | hnull : HKey
  | hbool : Bool → HKey
  | hnum : Int → HKey
  | hstr : String → HKey
deriving DecidableEq

/-- Python `j[k]` on a decoded JSON value: a `KeyError` for a missing
key and a `TypeError` for a non-dict. -/
def getKey (j : Json) (k : String) : Except String Json :=
  match j with
  | .obj kvs =>
    match List.lookup k kvs with
    | some v => .ok v
    | none => .error "KeyError"
  | _ => .error "TypeError: not a dict"

/-- Iterating a decoded JSON value as a sequence.  Only an array
iterates usefully here; every other shape leads (possibly one access
later) to a raised error that the bare `except` absorbs, so they are
collapsed to an error. -/
def asArr (j : Json) : Except String (List Json) :=
  match j with
  | .arr xs => .ok xs
  | _ => .error "TypeError: not iterable"

/-- A canvas label as a dict key; unhashable labels raise. -/
def toHKey (j : Json) : Except String HKey :=
  match j with
  | .null => .ok .hnull
  | .jbool b => .ok (.hbool b)
  | .num n => .ok (.hnum n)
  | .str s => .ok (.hstr s)
  | _ => .error "TypeError: unhashable type"

/-- Python dict insertion: re-assigning an existing key keeps its
position and updates the value; a new key is appended. -/
def dictInsert (d : List (HKey × Json)) (k : HKey) (v : Json) :
    List (HKey × Json) :=
  if d.any fun p => p.1 == k then
    d.map fun p => if p.1 == k then (k, v) else p
  else d ++ [(k, v)]

/-- The dict comprehension of `thumbnail_from_manifest`: for every
canvas of every sequence, map its label to the canvas's
`images[0].resource.service.@id` value (the value expression is
evaluated for every canvas, so any malformed canvas raises during
construction). -/
def buildCanvases (manifest : Json) : Except String (List (HKey × Json)) := do
  let seqs ← getKey manifest "sequences" >>= asArr
  seqs.foldlM (fun d seq => do
    let cs ← getKey seq "canvases" >>= asArr
    cs.foldlM (fun d c => do
      let label ← getKey c "label" >>= toHKey
      let images ← getKey c "images" >>= asArr
      let img ← match images.head? with
        | some i => pure i
        | none => Except.error "IndexError"
      let service ← getKey img "resource" >>= (getKey · "service")
      let cid ← getKey service "@id"
      pure (dictInsert d label cid)) d) []

/-- Python truthiness of a decoded JSON value (the expression
`canvases.get("f. 001r") or ...` tests the entry for truthiness). -/
def jsonTruthy : Json → Bool
  | .null => false
  | .jbool b => b
  | .num n => n != 0
  | .str s => s != ""
  | .arr xs => !xs.isEmpty
  | .obj kvs => !kvs.isEmpty

/-- The chosen canvas id must be a string for the `+` with the image
request suffix; anything else raises a `TypeError`. -/
def asStr (j : Json) : Except String String :=
  match j with
  | .str s => .ok s
  | _ => .error "TypeError: not a str"

/-- Body of `thumbnail_from_manifest`, i.e. the contents of its `try`
block: a non-string manifest URL returns `None` immediately; otherwise
the manifest is fetched (`fetch` models `requests.get(...).json()`, its
error covering network failures and malformed JSON alike), the canvases
dict is built, the `"f. 001r"` entry is chosen when truthy, otherwise
the first canvas's value (an `IndexError` when there is none), and the
image request suffix is appended. -/
def tfmBody (fetch : String → Except String Json) (record : Record) :
    Except String (Option String) :=
  match rvalD record "iiif_manifest_url_ssi" with
  | .vstr url => do
    let manifest ← fetch url
    let canvases ← buildCanvases manifest
    let chosen ←
      match List.lookup (.hstr "f. 001r") canvases with
      | some v =>
        if jsonTruthy v then pure v
        else
          match canvases.head? with
          | some p => pure p.2
          | none => Except.error "IndexError"
      | none =>
        match canvases.head? with
        | some p => pure p.2
        | none => Except.error "IndexError"
    let s ← asStr chosen
    pure (some (s ++ "/full/!200,200/0/default.jpg"))
  | _ => pure none

/-- Embedding of `thumbnail_from_manifest`: the bare `except:` maps
every raised error to `None`. -/
def thumbnail_from_manifest (fetch : String → Except String Json)
    (record : Record) : Option String :=
  match tfmBody fetch record with
  | .ok v => v
  | .error _ => none

/-- A schema: the external `mapper.FIELD_MAPPING` dict, an ordered
association of output field names to mapping rules. -/
abbrev Schema : Type := List (String × MappingRule)

/-- Loop of the base pass: each schema entry in order is mapped through
`map_field_value` and stored in the accumulating record; a raised
`TypeError` aborts the whole record. -/
def baseRecordAux (row : Row) (config : Config) :
    Schema → Record → Except String Record
  | [], acc => .ok acc
  | (k, rule) :: rest, acc =>
    match map_field_value row k config rule with
    | .ok v => baseRecordAux row config rest (rset acc k v)
    | .error e => .error e

/-- The base pass of `map_record`: the dict comprehension mapping every
schema field through `map_field_value`, starting from the empty
record. -/
def baseRecord (row : Row) (config : Config) (schema : Schema) :
    Except String Record :=
  baseRecordAux row config schema []

/-- The collection-name step of `map_record`: when the row has a
`Parent ARK` column whose value is a key of the collection-name index,
the looked-up title overwrites the collection-name field. -/
def collectionPass (row : Row) (config : Config) (record : Record) : Record :=
  if rowHas row "Parent ARK" then
    match rowGet row "Parent ARK" with
    | some ark =>
      match List.lookup ark config.collection_names with
      | some title => rset record "dlcs_collection_name_tesim" (.vlist [title])
      | none => record
    | none => record
  else record

/-- The facet-mirror assignments at the end of `map_record`, in source
order; each reads from the record as updated by the previous lines
(`record.get` of an absent display field stores `None`). -/
def facetPass (record : Record) : Record :=
  let record := rset record "genre_sim" (rvalD record "genre_tesim")
  let record := rset record "human_readable_language_sim" (rvalD record "language_tesim")
  let record := rset record "human_readable_resource_type_sim" (rvalD record "resource_type_tesim")
  let record := rset record "location_sim" (rvalD record "location_tesim")
  let record := rset record "member_of_collections_ssim" (rvalD record "dlcs_collection_name_tesim")
  let record := rset record "named_subject_sim" (rvalD record "named_subject_tesim")
  let record := rset record "subject_sim" (rvalD record "subject_tesim")
  let record := rset record "year_isim" (rvalD record "year_tesim")
  record

/-- Embedding of `map_record`: the base pass over the schema, then the
thumbnail chain (a lazy Python `or`: the first truthy operand wins and
the later lookups are then not evaluated at all), the
collection-name overwrite, and the facet mirrors — the last line of
which copies `year_tesim` into `year_isim` verbatim (`feed_ursus.py`
never calls `date_parser`). -/
def map_record (fetch : String → Except String Json) (row : Row)
    (config : Config) (schema : Schema) : Except String Record := do
  let record ← baseRecord row config schema
  let base := rvalD record "thumbnail_url_ss"
  let thumb ←
    if truthy base then pure base
    else do
      let tc ← thumbnail_from_child record config
      if truthy (optVal tc) then pure (optVal tc)
      else pure (optVal (thumbnail_from_manifest fetch record))
  let record := rset record "thumbnail_url_ss" thumb
  let record := collectionPass row config record
  let record := facetPass record
  pure record

/-! Definitions taken from the specification's words, for comparison
with the code-derived definitions above. -/

/-- Formalization of the spec's range-matching condition as the claim
states it: the element fits a two-part pattern with exactly one
separating slash. -/
def specRangeMatch (s : String) : Bool :=
  s.data.count '/' == 1

/-- Helper for `specStripFieldSuffix`: finds the rightmost underscore
that is followed by one or more word characters running to the end,
and drops it and everything after it. -/
def stripAuxLast : List Char → Option (List Char)
  | [] => none
  | c :: rest =>
    match stripAuxLast rest with
    | some l => some (c :: l)
    | none =>
      if c = '_' && !rest.isEmpty && rest.all isWordChar then some []
      else none

/-- Formalization of the spec's base-field-name derivation as the
claim states it: strip one trailing underscore-plus-suffix token, the
suffix being the run of word characters after the last underscore. -/
def specStripFieldSuffix (field_name : String) : String :=
  match stripAuxLast field_name.data with
  | some l => ⟨l⟩
  | none => field_name

/-! Theorems. -/

theorem splitLastSlash_isSome (cs : List Char) :
    (splitLastSlash cs).isSome ↔ '/' ∈ cs := by
  induction cs with
  | nil => simp [splitLastSlash]
  | cons c rest ih =>
    cases h : splitLastSlash rest with
    | some p =>
      have : '/' ∈ rest := ih.mp (by simp [h])
      simp [splitLastSlash, h, List.mem_cons, this]
    | none =>
      have hrest : '/' ∉ rest := fun hm => by simp [h] at ih; exact ih hm
      by_cases hc : c = '/'
      · simp [splitLastSlash, h, hc]
      · simp [splitLastSlash, h, hc, List.mem_cons, hrest]
        exact fun heq => hc heq.symm

theorem splitLastSlash_eq {cs l r : List Char}
    (h : splitLastSlash cs = some (l, r)) :
    cs = l ++ '/' :: r ∧ '/' ∉ r := by
  induction cs generalizing l r with
  | nil => simp [splitLastSlash] at h
  | cons c rest ih =>
    cases h' : splitLastSlash rest with
    | some p =>
      rw [splitLastSlash, h'] at h
      obtain ⟨hl, hr⟩ : c :: p.1 = l ∧ p.2 = r := by
        simpa using h
      obtain ⟨h1, h2⟩ := ih (l := p.1) (r := p.2) (by simpa using h')
      subst hl hr
      exact ⟨by simp [h1], h2⟩
    | none =>
      rw [splitLastSlash, h'] at h
      have hrest : '/' ∉ rest := fun hm => by
        have hS := (splitLastSlash_isSome rest).mpr hm
        rw [h'] at hS
        simp at hS
      by_cases hc : c = '/'
      · rw [if_pos hc] at h
        obtain ⟨hl, hr⟩ : [] = l ∧ rest = r := by
          simpa [Prod.ext_iff] using h
        subst hl hr
        exact ⟨by simp [hc], hrest⟩
      · simp [hc] at h

/-- C1: evaluation of the embedded `get_dates` at the claim's five
reference vectors.  The code accumulates and sorts full `datetime`
objects (carrying the default's month and day), never the bare integer
years that the claim — and the functions' own docstrings — describe:
`get_date` returns `parsed_date` itself rather than its `.year`, and
the module's `YEAR` regex is never used. -/
theorem get_dates_vectors_return_datetimes :
    get_dates (.pyList [.pyStr "1923/1925"]) = [⟨1923, 1, 1⟩, ⟨1925, 1, 1⟩] ∧
    get_dates (.pyList [.pyStr "1923"]) = [⟨1923, 1, 1⟩] ∧
    get_dates (.pyList [.pyStr "not-a-date"]) = [] ∧
    get_dates .pyNone = [] ∧
    get_dates (.pyList [.pyStr "1978"]) = [⟨1978, 1, 1⟩] := by
  refine ⟨?_, ?_, ?_, ?_, ?_⟩ <;> decide

/-- C2: at a concrete row the final record's `year_isim` is the
verbatim copy of the `year_tesim` string list, not the normalized year
list the claim describes — `map_record` never invokes
`date_parser.get_dates` (whose value on this date list is computed in
the second conjunct for contrast). -/
theorem year_isim_is_verbatim_copy :
    (map_record (fun _ => .error "network unavailable")
        [("Date", some "1923/1925")] ⟨[], [], none⟩
        [("year_tesim", .col "Date")]).map (fun r => rlookup r "year_isim") =
      .ok (some (.vlist ["1923/1925"])) ∧
    get_dates (.pyList [.pyStr "1923/1925"]) = [⟨1923, 1, 1⟩, ⟨1925, 1, 1⟩] :=
  ⟨rfl, by decide⟩

/-- C3 (counterexample): the range branch fires on `"5/6/1923"`, an
element that does not have exactly one separating slash, and the
greedy match splits at the last slash (left group `"5/6"`, not a
non-greedy minimal one); both sides then parse, so the element
contributes two dates. -/
theorem range_branch_on_multislash_input :
    rangeSearch "5/6/1923" = some ("5/6", "1923") ∧
    specRangeMatch "5/6/1923" = false ∧
    get_dates (.pyList [.pyStr "5/6/1923"]) = [⟨1923, 1, 1⟩, ⟨1978, 5, 6⟩] := by
  refine ⟨?_, ?_, ?_⟩ <;> decide

/-- C3 (amended): an element matches the range branch exactly when it
contains at least one slash; the match splits the element at its last
slash (the left group is greedy), the two parts are parsed
independently by `get_date`, and both resulting dates are added if and
only if both parse — an element whose range match has an unparseable
side contributes nothing, with no fallback to whole-element parsing. -/
theorem range_branch_last_slash_both_or_nothing (s : String)
    (_hnl : '\n' ∉ s.data) :
    ((rangeSearch s).isSome ↔ '/' ∈ s.data) ∧
    (∀ l r, rangeSearch s = some (l, r) →
      s.data = l.data ++ '/' :: r.data ∧ '/' ∉ r.data ∧
      elemDates (.pyStr s) =
        (match get_date l, get_date r with
         | some a, some b => [a, b]
         | _, _ => [])) := by
  constructor
  · simpa [rangeSearch] using splitLastSlash_isSome s.data
  · intro l r h
    obtain ⟨p, hp, hlr⟩ := Option.map_eq_some'.mp h
    obtain ⟨hl, hr⟩ : (⟨p.1⟩ : String) = l ∧ (⟨p.2⟩ : String) = r := by
      simpa [Prod.ext_iff] using hlr
    obtain ⟨h1, h2⟩ := splitLastSlash_eq (l := p.1) (r := p.2) (by simpa using hp)
    subst hl hr
    exact ⟨h1, h2, by simp [elemDates, h]⟩

/-- Closed instance of the amended C3 theorem at the range
`"1923/1925"`. -/
theorem range_branch_last_slash_both_or_nothing_witness :
    (rangeSearch "1923/1925").isSome ∧
    elemDates (.pyStr "1923/1925") = [⟨1923, 1, 1⟩, ⟨1925, 1, 1⟩] := by
  have h := range_branch_last_slash_both_or_nothing "1923/1925" (by decide)
  refine ⟨h.1.mpr (by decide), ?_⟩
  have h2 := h.2 "1923" "1925" (by decide)
  rw [h2.2.2]
  decide

theorem insertionSort_congr_perm {A B : List PyDateTime} (h : A.Perm B) :
    List.insertionSort dtLE A = List.insertionSort dtLE B :=
  List.eq_of_perm_of_sorted
    ((List.perm_insertionSort dtLE A).trans
      (h.trans (List.perm_insertionSort dtLE B).symm))
    (List.sorted_insertionSort dtLE A) (List.sorted_insertionSort dtLE B)

/-- C4: `get_dates` is order-independent and duplicate-insensitive —
permuting the input list, or prepending a duplicate of an element the
list already holds, leaves the sorted output unchanged. -/
theorem get_dates_perm_and_dup_invariant :
    (∀ xs ys : List PyObj, xs.Perm ys →
      get_dates (.pyList xs) = get_dates (.pyList ys)) ∧
    (∀ (xs : List PyObj) (x : PyObj), x ∈ xs →
      get_dates (.pyList (x :: xs)) = get_dates (.pyList xs)) := by
  constructor
  · intro xs ys h
    simp only [get_dates, pyIsIterable, pyIterate, if_pos]
    exact insertionSort_congr_perm ((h.flatMap_right elemDates).dedup)
  · intro xs x hx
    have hperm : List.Perm ((x :: xs).flatMap elemDates).dedup
        (xs.flatMap elemDates).dedup := by
      rw [List.flatMap_cons]
      refine (List.perm_ext_iff_of_nodup (List.nodup_dedup _)
        (List.nodup_dedup _)).mpr fun a => ?_
      simp only [List.mem_dedup, List.mem_append]
      constructor
      · rintro (ha | ha)
        · exact List.mem_flatMap.mpr ⟨x, hx, ha⟩
        · exact ha
      · exact Or.inr
    simp only [get_dates, pyIsIterable, pyIterate, if_pos]
    exact insertionSort_congr_perm hperm

/-- Closed instance of the C4 theorem: a transposition and a
duplication of `"1923"`. -/
theorem get_dates_perm_and_dup_invariant_witness :
    get_dates (.pyList [.pyStr "1923", .pyStr "1925"]) =
      get_dates (.pyList [.pyStr "1925", .pyStr "1923"]) ∧
    get_dates (.pyList [.pyStr "1923", .pyStr "1923"]) =
      get_dates (.pyList [.pyStr "1923"]) := by
  constructor
  · exact get_dates_perm_and_dup_invariant.1 _ _ (List.Perm.swap _ _ _)
  · exact get_dates_perm_and_dup_invariant.2 [.pyStr "1923"]
      (.pyStr "1923") (by simp)

/-- C5: the column-list path splits each truthy referenced cell on the
MARC delimiter `|~|`, concatenates the fragments in column order then
within-column split order, and drops falsy (empty-string) fragments
from the final list; a single-column rule behaves as the one-element
column list; in particular a single-column rule over a cell
`"a|~|b|~|"` yields exactly `["a", "b"]`. -/
theorem column_rule_split_concat_filter :
    (∀ (row : Row) (field_name : String) (config : Config)
      (cols : List String),
      List.lookup (stripFieldSuffix field_name) config.controlled_fields =
          none →
      (map_field_value row field_name config (.cols cols) =
        .ok (.vlist ((cols.flatMap (cellFrags row)).filter
          fun v => v != "")) ∧
       ∀ c, map_field_value row field_name config (.col c) =
         map_field_value row field_name config (.cols [c]))) ∧
    map_field_value [("ColA", some "a|~|b|~|")] "title_tesim"
        ⟨[], [], none⟩ (.col "ColA") = .ok (.vlist ["a", "b"]) := by
  constructor
  · intro row field_name config cols h
    exact ⟨by simp [map_field_value, mapColumnList, h], fun c => rfl⟩
  · rfl

/-- Closed instance of the C5 theorem at a two-column rule. -/
theorem column_rule_split_concat_filter_witness :
    map_field_value [("A", some "x|~|"), ("B", some "y")] "note_tesim"
        ⟨[], [], none⟩ (.cols ["A", "B"]) = .ok (.vlist ["x", "y"]) := by
  have h := column_rule_split_concat_filter.1
    [("A", some "x|~|"), ("B", some "y")] "note_tesim" ⟨[], [], none⟩
    ["A", "B"] rfl
  exact h.1.trans rfl

/-- C6 (counterexample): with a vocabulary table for `"a_b"` — the base
name the claim derives from `"a_b_sim"` by stripping the token after
the last underscore — the code does not substitute: its regex strips
from the first underscore (`\w` includes the underscore itself), so it
derives `"a"`, finds no table, and the term-id fragment `"1"` is
returned unchanged instead of its display term. -/
theorem vocab_base_name_counterexample :
    map_field_value [("c", some "1")] "a_b_sim"
        ⟨[], [("a_b", [("1", "T")])], none⟩ (.col "c") =
      .ok (.vlist ["1"]) ∧
    specStripFieldSuffix "a_b_sim" = "a_b" ∧
    stripFieldSuffix "a_b_sim" = "a" := by
  refine ⟨rfl, ?_, ?_⟩ <;> decide

/-- C6 (amended): the base field name is obtained by stripping the
leftmost underscore that is followed only by word characters up to the
end of the name, and everything after it (for an all-word-character
name that is the first underscore, not the last); when a vocabulary
table exists for that base name each fragment equal to a term-id is
replaced by the display term and every other fragment is kept
unchanged — e.g. fragment `"1"` becomes `"Photograph"` and fragment
`"2"` stays `"2"`. -/
theorem vocab_pass_leftmost_underscore :
    (∀ (row : Row) (field_name : String) (config : Config)
      (terms : Terms) (c : String),
      List.lookup (stripFieldSuffix field_name) config.controlled_fields =
          some terms →
      map_field_value row field_name config (.col c) =
        .ok (.vlist (((cellFrags row c).map fun v =>
          (List.lookup v terms).getD v).filter fun v => v != ""))) ∧
    map_field_value [("c", some "1")] "genre_sim"
        ⟨[], [("genre", [("1", "Photograph")])], none⟩ (.col "c") =
      .ok (.vlist ["Photograph"]) ∧
    map_field_value [("d", some "2")] "genre_sim"
        ⟨[], [("genre", [("1", "Photograph")])], none⟩ (.col "d") =
      .ok (.vlist ["2"]) ∧
    stripFieldSuffix "human_readable_language_sim" = "human" := by
  refine ⟨?_, rfl, rfl, by decide⟩
  intro row field_name config terms c h
  simp [map_field_value, mapColumnList, h]

/-- Closed instance of the amended C6 theorem: one matching and one
non-matching fragment in the same cell. -/
theorem vocab_pass_leftmost_underscore_witness :
    map_field_value [("c", some "1|~|2")] "genre_sim"
        ⟨[], [("genre", [("1", "Photograph")])], none⟩ (.col "c") =
      .ok (.vlist ["Photograph", "2"]) := by
  have h := vocab_pass_leftmost_underscore.1 [("c", some "1|~|2")]
    "genre_sim" ⟨[], [("genre", [("1", "Photograph")])], none⟩
    [("1", "Photograph")] "c" rfl
  exact h.trans rfl

/-- C7: `map_field_value` raises its configuration `TypeError` exactly
for a rule that is none of null, callable, string, and column list —
every other rule shape returns without an error. -/
theorem field_value_error_iff_bad_rule :
    ∀ (row : Row) (field_name : String) (config : Config)
      (rule : MappingRule),
      (∃ e, map_field_value row field_name config rule = .error e) ↔
        rule = .notCollection := by
  intro row field_name config rule
  cases rule <;> simp [map_field_value, mapColumnList]

/-- C10: `thumbnail_from_manifest` returns null immediately when the
record's manifest-URL field is not a string, and every failure raised
inside its body (fetch, parse, or structural access) is absorbed into
a null result — the bare `except` never lets an error propagate. -/
theorem manifest_thumbnail_absorbs_failures :
    (∀ (fetch : String → Except String Json) (record : Record),
      (∀ s, rvalD record "iiif_manifest_url_ssi" ≠ .vstr s) →
      thumbnail_from_manifest fetch record = none) ∧
    (∀ (fetch : String → Except String Json) (record : Record)
      (e : String),
      tfmBody fetch record = .error e →
      thumbnail_from_manifest fetch record = none) := by
  constructor
  · intro fetch record h
    have hbody : tfmBody fetch record = .ok none := by
      unfold tfmBody
      cases hv : rvalD record "iiif_manifest_url_ssi" with
      | vnone => rfl
      | vstr s => exact absurd hv (h s)
      | vlist l => rfl
    unfold thumbnail_from_manifest
    rw [hbody]
  · intro fetch record e h
    unfold thumbnail_from_manifest
    rw [h]

theorem lookup_overwrite_ne {k k' : String} (v : Val) (hne : k' ≠ k) :
    ∀ r : Record,
      List.lookup k' (r.map fun p => if p.1 == k then (k, v) else p) =
        List.lookup k' r
  | [] => rfl
  | (pk, pv) :: rest => by
    have hk : (k' == k) = false := by simpa using hne
    by_cases hp : pk = k
    · subst hp
      simpa [List.lookup_cons, hk] using lookup_overwrite_ne v hne rest
    · cases hkp : (k' == pk)
      · simpa [List.lookup_cons, hp, hkp] using
          lookup_overwrite_ne v hne rest
      · simp [List.lookup_cons, hp, hkp]

theorem lookup_overwrite_self {k : String} (v : Val) :
    ∀ r : Record, r.any (fun p => p.1 == k) = true →
      List.lookup k (r.map fun p => if p.1 == k then (k, v) else p) =
        some v
  | [], h => by simp at h
  | (pk, pv) :: rest, h => by
    by_cases hp : pk = k
    · subst hp
      simp [List.lookup_cons]
    · have hpk : (pk == k) = false := by simpa using hp
      have hkp : (k == pk) = false := by
        simpa using fun he => hp he.symm
      have hrest : rest.any (fun p => p.1 == k) = true := by
        simpa [hpk] using h
      simp only [List.map_cons, hpk, Bool.false_eq_true, if_false,
        List.lookup_cons, hkp]
      exact lookup_overwrite_self v rest hrest

/-- Dict update then lookup: the updated key reads back the new value,
every other key is untouched. -/
theorem rlookup_rset (r : Record) (k : String) (v : Val) (k' : String) :
    rlookup (rset r k v) k' = if k' = k then some v else rlookup r k' := by
  unfold rset rlookup
  by_cases hany : r.any (fun p => p.1 == k) = true
  · rw [if_pos hany]
    by_cases hk : k' = k
    · subst hk
      rw [if_pos rfl]
      exact lookup_overwrite_self v r hany
    · rw [if_neg hk]
      exact lookup_overwrite_ne v hk r
  · rw [if_neg hany, List.lookup_append]
    have hnone : List.lookup k r = none := by
      rw [List.lookup_eq_none_iff]
      intro p hp
      have h2 : p.1 ≠ k := fun he =>
        hany (List.any_eq_true.mpr ⟨p, hp, by simpa using he⟩)
      simpa using fun he => h2 he.symm
    by_cases hk : k' = k
    · subst hk
      simp [hnone, List.lookup_cons]
    · have hkk : (k' == k) = false := by simpa using hk
      simp [hk, List.lookup_cons, hkk]

theorem rlookup_rset_self (r : Record) (k : String) (v : Val) :
    rlookup (rset r k v) k = some v := by
  rw [rlookup_rset, if_pos rfl]

theorem rlookup_rset_ne (r : Record) (k : String) (v : Val) (k' : String)
    (h : k' ≠ k) : rlookup (rset r k v) k' = rlookup r k' := by
  rw [rlookup_rset, if_neg h]

theorem isSome_rset (r : Record) (k : String) (v : Val) (k' : String)
    (h : (rlookup r k').isSome = true) :
    (rlookup (rset r k v) k').isSome = true := by
  by_cases hk : k' = k
  · subst hk; rw [rlookup_rset_self]; rfl
  · rw [rlookup_rset_ne _ _ _ _ hk]; exact h

theorem isSome_collectionPass (row : Row) (config : Config) (r : Record)
    (k : String) (h : (rlookup r k).isSome = true) :
    (rlookup (collectionPass row config r) k).isSome = true := by
  unfold collectionPass
  split
  · split
    · split
      · exact isSome_rset _ _ _ _ h
      · exact h
    · exact h
  · exact h

theorem isSome_facetPass (r : Record) (k : String)
    (h : (rlookup r k).isSome = true) :
    (rlookup (facetPass r) k).isSome = true := by
  unfold facetPass
  iterate 8 apply isSome_rset
  exact h

theorem baseRecordAux_keys (row : Row) (config : Config) :
    ∀ (schema : Schema) (acc rec : Record) (fn : String),
      baseRecordAux row config schema acc = .ok rec →
      (fn ∈ schema.map Prod.fst ∨ (rlookup acc fn).isSome = true) →
      (rlookup rec fn).isSome = true := by
  intro schema
  induction schema with
  | nil =>
    intro acc rec fn h hm
    obtain rfl : acc = rec := by simpa [baseRecordAux] using h
    rcases hm with hm | hm
    · simp at hm
    · exact hm
  | cons p rest ih =>
    intro acc rec fn h hm
    obtain ⟨k, rule⟩ := p
    rw [baseRecordAux] at h
    cases hv : map_field_value row k config rule with
    | error e => rw [hv] at h; exact absurd h (by simp)
    | ok v =>
      rw [hv] at h
      refine ih (rset acc k v) rec fn h ?_
      rcases hm with hm | hm
      · rw [List.map_cons] at hm
        rcases List.mem_cons.mp hm with hm | hm
        · subst hm
          right
          rw [rlookup_rset_self]
          rfl
        · exact Or.inl hm
      · exact Or.inr (isSome_rset _ _ _ _ hm)

theorem except_ok_bind {α β : Type} (a : α) (f : α → Except String β) :
    ((Except.ok a : Except String α) >>= f) = f a := rfl

theorem except_map_pure {α β : Type} (f : α → β) (a : α) :
    ((pure a : Except String α).map f) = .ok (f a) := rfl

/-- C8: every field name declared in the schema is a key of the record
`map_record` produces, even when its mapped value is null or an empty
list. -/
theorem map_record_contains_schema_fields :
    ∀ (fetch : String → Except String Json) (row : Row) (config : Config)
      (schema : Schema) (rec : Record) (field_name : String),
      map_record fetch row config schema = .ok rec →
      field_name ∈ schema.map Prod.fst →
      (rlookup rec field_name).isSome = true := by
  intro fetch row config schema rec fn h hm
  unfold map_record at h
  cases hb : baseRecord row config schema with
  | error e => rw [hb] at h; exact absurd h (by simp [Bind.bind, Except.bind])
  | ok base =>
    rw [hb, except_ok_bind] at h
    have hbase : (rlookup base fn).isSome = true :=
      baseRecordAux_keys row config schema [] base fn hb (Or.inl hm)
    have hdone : ∀ thumb : Val,
        rec = facetPass (collectionPass row config
          (rset base "thumbnail_url_ss" thumb)) →
        (rlookup rec fn).isSome = true := by
      intro thumb hrec
      subst hrec
      exact isSome_facetPass _ _ (isSome_collectionPass _ _ _ _
        (isSome_rset _ _ _ _ hbase))
    by_cases ht : truthy (rvalD base "thumbnail_url_ss")
    · rw [if_pos ht, pure_bind] at h
      exact hdone _ (Except.ok.inj h).symm
    · rw [if_neg ht] at h
      cases htc : thumbnail_from_child base config with
      | error e =>
        rw [htc] at h
        exact absurd h (by simp [Bind.bind, Except.bind])
      | ok tc =>
        rw [htc, except_ok_bind] at h
        by_cases htt : truthy (optVal tc)
        · rw [if_pos htt, pure_bind] at h
          exact hdone _ (Except.ok.inj h).symm
        · rw [if_neg htt, pure_bind] at h
          exact hdone _ (Except.ok.inj h).symm

/-- Closed instance of the C8 theorem at a one-field schema: the
record `map_record` computes there carries the schema's field. -/
theorem map_record_contains_schema_fields_witness :
    (rlookup [("a_tesim", Val.vnone), ("thumbnail_url_ss", Val.vnone),
      ("genre_sim", Val.vnone), ("human_readable_language_sim", Val.vnone),
      ("human_readable_resource_type_sim", Val.vnone),
      ("location_sim", Val.vnone), ("member_of_collections_ssim", Val.vnone),
      ("named_subject_sim", Val.vnone), ("subject_sim", Val.vnone),
      ("year_isim", Val.vnone)] "a_tesim").isSome = true :=
  map_record_contains_schema_fields
    (fun _ => .error "network unavailable") [] ⟨[], [], none⟩
    [("a_tesim", .null)] _ "a_tesim" (by decide) (by simp)

theorem rlookup_collectionPass_thumb (row : Row) (config : Config)
    (r : Record) :
    rlookup (collectionPass row config r) "thumbnail_url_ss" =
      rlookup r "thumbnail_url_ss" := by
  unfold collectionPass
  split
  · split
    · split
      · rw [rlookup_rset_ne _ _ _ _ (by decide)]
      · rfl
    · rfl
  · rfl

theorem rlookup_facetPass_thumb (r : Record) :
    rlookup (facetPass r) "thumbnail_url_ss" =
      rlookup r "thumbnail_url_ss" := by
  unfold facetPass
  iterate 8 rw [rlookup_rset_ne _ _ _ _ (by decide)]

/-- C9 (counterexample): a base pass that maps the thumbnail field to
an empty list — a non-null value — does not suppress the fallbacks:
both fallbacks yield null here (no `data_frame`, no manifest URL), and
the field ends as null, where the claim (first non-null wins) predicts
the empty list. -/
theorem thumbnail_not_null_counterexample :
    (map_record (fun _ => .error "network unavailable") [] ⟨[], [], none⟩
        [("thumbnail_url_ss", .col "thumb")]).map
        (fun rec => rlookup rec "thumbnail_url_ss") = .ok (some .vnone) ∧
    (baseRecord [] ⟨[], [], none⟩ [("thumbnail_url_ss", .col "thumb")]).map
        (fun rec => rvalD rec "thumbnail_url_ss") = .ok (.vlist []) ∧
    Val.vnone ≠ Val.vlist [] :=
  ⟨rfl, rfl, by simp⟩

/-- C9 (amended): the thumbnail field is assigned the first truthy
(non-null and non-empty) result, in order, of (a) the base-pass value,
(b) `thumbnail_from_child`, (c) `thumbnail_from_manifest`; when all
three are falsy the field is null.  A truthy base-pass value
suppresses both fallback lookups, but a falsy non-null one (empty list
or empty string) does not. -/
theorem thumbnail_chain_first_truthy :
    ∀ (fetch : String → Except String Json) (row : Row) (config : Config)
      (schema : Schema) (base : Record) (tc : Option String),
      baseRecord row config schema = .ok base →
      thumbnail_from_child base config = .ok tc →
      (map_record fetch row config schema).map
          (fun rec => rlookup rec "thumbnail_url_ss") =
        .ok (some (pyOr (rvalD base "thumbnail_url_ss")
          (pyOr (optVal tc)
            (optVal (thumbnail_from_manifest fetch base))))) := by
  intro fetch row config schema base tc hb htc
  unfold map_record
  rw [hb, except_ok_bind]
  by_cases ht : truthy (rvalD base "thumbnail_url_ss")
  · rw [if_pos ht, pure_bind]
    simp only [except_map_pure, rlookup_facetPass_thumb,
      rlookup_collectionPass_thumb, rlookup_rset_self]
    simp [pyOr, ht]
  · rw [if_neg ht, htc, except_ok_bind]
    by_cases htt : truthy (optVal tc)
    · rw [if_pos htt, pure_bind]
      simp only [except_map_pure, rlookup_facetPass_thumb,
        rlookup_collectionPass_thumb, rlookup_rset_self]
      simp [pyOr, ht, htt]
    · rw [if_neg htt, pure_bind]
      simp only [except_map_pure, rlookup_facetPass_thumb,
        rlookup_collectionPass_thumb, rlookup_rset_self]
      simp [pyOr, ht, htt]

/-- Closed instance of the amended C9 theorem: a truthy base-pass
thumbnail value wins the chain. -/
theorem thumbnail_chain_first_truthy_witness :
    (map_record (fun _ => .error "network unavailable") [] ⟨[], [], none⟩
        [("thumbnail_url_ss", .computed fun _ => .vstr "http://t")]).map
        (fun rec => rlookup rec "thumbnail_url_ss") =
      .ok (some (.vstr "http://t")) := by
  have h := thumbnail_chain_first_truthy
    (fun _ => .error "network unavailable") [] ⟨[], [], none⟩
    [("thumbnail_url_ss", .computed fun _ => .vstr "http://t")]
    [("thumbnail_url_ss", .vstr "http://t")] none rfl rfl
  exact h.trans rfl

/-- Closed instance of the C10 theorem: a record without a manifest
URL, and a record whose fetch fails, both degrade to null. -/
theorem manifest_thumbnail_absorbs_failures_witness :
    thumbnail_from_manifest (fun _ => .error "network unavailable") [] = none ∧
    thumbnail_from_manifest (fun _ => .error "network unavailable")
      [("iiif_manifest_url_ssi", .vstr "http://example.test/manifest")] =
        none := by
  constructor
  · exact manifest_thumbnail_absorbs_failures.1 _ _
      (fun s h => by simp [rvalD, rlookup] at h)
  · exact manifest_thumbnail_absorbs_failures.2 _ _ "network unavailable" rfl

end FeedSinai
